import Mathlib

/-!
Verification of the Bedrock chat adapter (src/core/llm/llms/Bedrock.ts).

The development shallowly embeds the adapter's three parts:
* the credential-store parser and profile selection (`parseCredentialsFile`,
  `selectProfile`, `selectCredentials`, from `_parseCredentialsFile` and the
  credential step of `_streamChat`);
* the message translation (`convertMessages`, `convertMessage`,
  `convertMessageContent`, from `_convertMessages` and friends);
* the request-body construction and the response-stream decoding
  (`requestBody`, `decodeFrames`, from the body of `_streamChat`).

JavaScript string operations are modelled on the character list of a
string: `split` with a one-character separator, `trim`, `startsWith` /
`endsWith` on single brackets, and `includes` of a single character.
JavaScript objects holding credential profiles are modelled as association
lists in insertion order (property names here are plain identifiers, so
insertion order is the enumeration order of the object).
-/

/-! ### JavaScript string primitives -/

/-- The whitespace characters removed by a JavaScript-style trim
(the ASCII ones plus no-break space and the byte-order mark). -/
def isJsSpace (c : Char) : Bool :=
  c == ' ' || c == '\t' || c == '\n' || c == '\r' ||
  c == '\x0b' || c == '\x0c' || c == ' ' || c == '﻿'

/-- JavaScript `String.prototype.trim`. -/
def trimChars (s : String) : String :=
  ⟨((s.data.dropWhile isJsSpace).reverse.dropWhile isJsSpace).reverse⟩

/-- Worker for `splitOnChar`: `acc` holds the characters of the current
piece, reversed. -/
def splitOnCharAux (c : Char) : List Char → List Char → List (List Char)
  | [], acc => [acc.reverse]
  | x :: xs, acc =>
    if x = c then acc.reverse :: splitOnCharAux c xs []
    else splitOnCharAux c xs (x :: acc)

/-- JavaScript `String.prototype.split` with a one-character separator. -/
def splitOnChar (s : String) (c : Char) : List String :=
  (splitOnCharAux c s.data []).map (fun l => ⟨l⟩)

/-- Does the string start with `[` and end with `]` (after trimming this is
the section-header test of the credential parser)? -/
def isHeaderLine (t : String) : Bool :=
  t.data.head? == some '[' && t.data.getLast? == some ']'

/-- `slice(1, -1)`: the section name between the brackets. -/
def headerName (t : String) : String :=
  ⟨(t.data.drop 1).dropLast⟩

/-! ### Credential profiles and the store -/

/-- One credential profile; fields are absent until assigned, mirroring a
fresh `{}` object. -/
structure Profile where
  accessKeyId : Option String := none
  secretAccessKey : Option String := none
  sessionToken : Option String := none
deriving DecidableEq, Repr

/-- The parsed credential store: profile name to profile, in insertion
order, names unique. -/
abbrev Store := List (String × Profile)

/-- Property read on the store object. -/
def lookupStore : Store → String → Option Profile
  | [], _ => none
  | (k, v) :: r, n => if k = n then some v else lookupStore r n

/-- Property write on the store object: replace in place when the name is
present, append otherwise. -/
def setProfile : Store → String → Profile → Store
  | [], n, p => [(n, p)]
  | (k, v) :: r, n, p =>
    if k = n then (n, p) :: r else (k, v) :: setProfile r n p

/-- Update the profile stored under a name that is already present. -/
def updateProfile : Store → String → (Profile → Profile) → Store
  | [], _, _ => []
  | (k, v) :: r, n, f =>
    if k = n then (k, f v) :: r else (k, v) :: updateProfile r n f

/-- The recognized-key assignment chain of `_parseCredentialsFile`. -/
def assignField (pr : Profile) (k v : String) : Profile :=
  if k = "aws_access_key_id" then { pr with accessKeyId := some v }
  else if k = "aws_secret_access_key" then { pr with secretAccessKey := some v }
  else if k = "aws_session_token" then { pr with sessionToken := some v }
  else pr

/-! ### The credential parser -/

/-- One iteration of the line loop of `_parseCredentialsFile`.  The state is
the current profile name (if a section is open) and the store built so
far. -/
def parseLine (st : Option String × Store) (line : String) : Option String × Store :=
  let t := trimChars line
  if isHeaderLine t then
    (some (headerName t), setProfile st.2 (headerName t) {})
  else
    match st.1 with
    | some cur =>
      if t.data.contains '=' then
        let parts := splitOnChar t '='
        let key := trimChars (parts.headD "")
        let value := trimChars ((parts.drop 1).headD "")
        (some cur, updateProfile st.2 cur (fun pr => assignField pr key value))
      else (some cur, st.2)
    | none => (none, st.2)

/-- `_parseCredentialsFile`: trim the contents, split into lines, run the
line loop. -/
def parseCredentialsFile (fileContents : String) : Store :=
  ((splitOnChar (trimChars fileContents) '\n').foldl parseLine (none, [])).2

/-- One iteration of the line loop with the implicit JavaScript failure
points made explicit: destructuring `[key, value]` from the split and then
calling `.trim()` on them would raise a TypeError when the split yields
fewer than two pieces, and assigning into `profiles[currentProfile]` would
raise when that entry is absent. -/
def parseLineChecked (st : Option String × Store) (line : String) :
    Except String (Option String × Store) :=
  let t := trimChars line
  if isHeaderLine t then
    .ok (some (headerName t), setProfile st.2 (headerName t) {})
  else
    match st.1 with
    | some cur =>
      if t.data.contains '=' then
        match splitOnChar t '=' with
        | k :: v :: _ =>
          match lookupStore st.2 cur with
          | some _ =>
            .ok (some cur,
              updateProfile st.2 cur
                (fun pr => assignField pr (trimChars k) (trimChars v)))
          | none => .error "TypeError: cannot set properties of undefined"
        | _ => .error "TypeError: cannot read properties of undefined"
      else .ok (some cur, st.2)
    | none => .ok (none, st.2)

/-- The parser with every implicit failure point explicit. -/
def parseCredentialsFileChecked (fileContents : String) : Except String Store := do
  let st ← (splitOnChar (trimChars fileContents) '\n').foldlM parseLineChecked (none, [])
  pure st.2

/-! ### Credential selection (the credential step of `_streamChat`) -/

/-- `credentialsFile.bedrock ?? credentialsFile.default`. -/
def selectProfile (store : Store) : Option Profile :=
  (lookupStore store "bedrock").orElse (fun _ => lookupStore store "default")

/-- The failures the credential step can surface.  `missingCredentials` is
the distinct error demanded by the specification's error taxonomy; the code
itself only ever produces `typeError`. -/
inductive StreamChatError
  | typeError (msg : String)
  | missingCredentials
deriving DecidableEq, Repr

/-- The credentials handed to the transport client. -/
structure ResolvedCredentials where
  accessKeyId : Option String
  secretAccessKey : Option String
  sessionToken : String
deriving DecidableEq, Repr

/-- The credential step of `_streamChat`: select a profile, read its
fields, default the session token to the empty string.  When neither
profile exists, the field read `credentials.accessKeyId` is a property
access on `undefined`, a TypeError. -/
def selectCredentials (store : Store) : Except StreamChatError ResolvedCredentials :=
  match selectProfile store with
  | none =>
    .error (.typeError "Cannot read properties of undefined (reading accessKeyId)")
  | some p => .ok ⟨p.accessKeyId, p.secretAccessKey, p.sessionToken.getD ""⟩

/-! ### Chat messages and their translation -/

/-- Message roles of the generic chat model. -/
inductive Role
  | system
  | user
  | assistant
deriving DecidableEq, Repr

/-- One part of a multi-part message content: a text part is kept as is, an
image part holds `imageUrl?.url` (the `imageUrl` object may be absent). -/
inductive MessagePart
  | textPart (text : String)
  | imagePart (imageUrl : Option String)
deriving DecidableEq, Repr

/-- Message content: a plain string or a list of parts. -/
abbrev MessageContent := String ⊕ List MessagePart

/-- A generic chat message. -/
structure ChatMessage where
  role : Role
  content : MessageContent
deriving DecidableEq, Repr

/-- A translated content part: a text part kept unchanged, or the
provider's embedded-image object (`source.type`, `source.media_type`,
`source.data`; the data may be absent when the url or its comma is). -/
inductive WirePart
  | textPart (text : String)
  | imagePart (sourceType : String) (mediaType : String) (data : Option String)
deriving DecidableEq, Repr

/-- A translated message. -/
structure WireMessage where
  role : Role
  content : String ⊕ List WirePart
deriving DecidableEq, Repr

/-- `part.imageUrl?.url.split(",")[1]`, for a present url. -/
def imageData (url : String) : Option String :=
  ((splitOnChar url ',').drop 1).head?

/-- The per-part branch of `_convertMessageContent`. -/
def convertPart : MessagePart → WirePart
  | .textPart t => .textPart t
  | .imagePart u => .imagePart "base64" "image/jpeg" (u.bind imageData)

/-- `_convertMessageContent`. -/
def convertMessageContent : MessageContent → String ⊕ List WirePart
  | .inl s => .inl s
  | .inr parts => .inr (parts.map convertPart)

/-- `_convertMessage`. -/
def convertMessage (m : ChatMessage) : WireMessage :=
  ⟨m.role, convertMessageContent m.content⟩

/-- `_convertMessages`: drop system messages, convert the rest. -/
def convertMessages (msgs : List ChatMessage) : List WireMessage :=
  (msgs.filter (fun m => m.role != Role.system)).map convertMessage

/-! ### JSON values and the wire request body -/

/-- JSON values (numbers restricted to the integers, which is all this
development ever puts in or takes out of a number). -/
inductive Json
  | null
  | bool (b : Bool)
  | num (n : Int)
  | str (s : String)
  | arr (elems : List Json)
  | obj (fields : List (String × Json))

/-- Key list of a JSON object (serialization order). -/
def objKeys : Json → List String
  | .obj fs => fs.map Prod.fst
  | _ => []

/-- Last binding of a key in a field list (on duplicate keys a JavaScript
JSON parse keeps the last one). -/
def lookupLast (fs : List (String × Json)) (k : String) : Option Json :=
  fs.foldl (fun acc f => if f.1 = k then some f.2 else acc) none

/-- Field of a JSON object. -/
def objGet (j : Json) (k : String) : Option Json :=
  match j with
  | .obj fs => lookupLast fs k
  | _ => none

/-- Role names on the wire. -/
def roleString : Role → String
  | .system => "system"
  | .user => "user"
  | .assistant => "assistant"

/-- Serialization of a translated part; an absent image data is omitted by
`JSON.stringify`. -/
def wirePartJson : WirePart → Json
  | .textPart t => .obj [("type", .str "text"), ("text", .str t)]
  | .imagePart st mt d =>
    .obj [("type", .str "image"),
          ("source", .obj ([("type", .str st), ("media_type", .str mt)] ++
            (match d with
             | some s => [("data", .str s)]
             | none => [])))]

/-- Serialization of translated content. -/
def wireContentJson : String ⊕ List WirePart → Json
  | .inl s => .str s
  | .inr ps => .arr (ps.map wirePartJson)

/-- Serialization of a translated message. -/
def wireMessageJson (m : WireMessage) : Json :=
  .obj [("role", .str (roleString m.role)), ("content", wireContentJson m.content)]

/-- Modelled from the spec: the completion options (section 3 of the spec;
the concrete option type lives outside the embedded source file).  The spec
lists `{model, maxTokens, temperature, topP, topK, stop}` with none of the
fields marked optional, so all fields are present; the numeric fields are
only ever copied, never computed with, and are carried as integers. -/
structure CompletionOptions where
  model : String
  maxTokens : Int
  temperature : Int
  topP : Int
  topK : Int
  stop : List String
deriving DecidableEq, Repr

/-- The body handed to the streaming invoke command in `_streamChat`. -/
def requestBody (systemMessage : String) (messages : List ChatMessage)
    (options : CompletionOptions) : Json :=
  .obj [("anthropic_version", .str "bedrock-2023-05-31"),
        ("max_tokens", .num options.maxTokens),
        ("system", .str systemMessage),
        ("messages", .arr ((convertMessages messages).map wireMessageJson)),
        ("temperature", .num options.temperature),
        ("top_p", .num options.topP),
        ("top_k", .num options.topK),
        ("stop_sequences", .arr (options.stop.map .str))]

/-! ### Decoding the response stream -/

/-- JavaScript property access on a parsed JSON value: on `null` it throws
a TypeError, on an object it reads the field, on anything else it gives
`undefined` (modelled as `none`). -/
def getProp : Json → String → Except String (Option Json)
  | .null, _ => .error "TypeError: cannot read properties of null"
  | .obj fs, k => .ok (lookupLast fs k)
  | _, _ => .ok none

/-- JavaScript truthiness of a JSON value. -/
def truthy : Json → Bool
  | .null => false
  | .bool b => b
  | .num n => n != 0
  | .str s => s != ""
  | .arr _ => true
  | .obj _ => true

/-- `JSON.parse(textChunk).delta?.text` for one frame: read `delta`, then
optionally chain into `text`. -/
def frameChunk (v : Json) : Except String (Option Json) := do
  let d ← getProp v "delta"
  match d with
  | none => pure none
  | some .null => pure none
  | some dv => getProp dv "text"

/-- What one frame contributes to the stream: its chunk when present and
truthy (`if (chunk) yield`), nothing otherwise or on a failure. -/
def frameEmission (f : Json) : Option Json :=
  match frameChunk f with
  | .ok (some v) => if truthy v then some v else none
  | _ => none

/-- The frame loop of `_streamChat`: emit the truthy chunks in frame
order; a frame whose property access throws fails the call. -/
def decodeFrames : List Json → Except String (List Json)
  | [] => .ok []
  | f :: rest => do
    let c ← frameChunk f
    let tail ← decodeFrames rest
    match c with
    | some v => if truthy v then pure (v :: tail) else pure tail
    | none => pure tail

/-! ### Specification-side descriptions

Definitions in this section phrase the spec's wording (first-appearance
order of section names, last assignment wins, substring after the first
separator) so that theorems can compare the embedded code against them. -/

/-- The lines of the credential store as the parser sees them. -/
def storeLines (s : String) : List String :=
  splitOnChar (trimChars s) '\n'

/-- The bracketed section names of the store, in file order, with
repetitions. -/
def headerNames (ls : List String) : List String :=
  ls.filterMap (fun l =>
    let t := trimChars l
    if isHeaderLine t then some (headerName t) else none)

/-- Keep the first appearance of every name, in order. -/
def firstAppearances (l : List String) : List String :=
  l.foldl (fun acc n => if n ∈ acc then acc else acc ++ [n]) []

/-- The body of a section: the lines before the next section header. -/
def sectionBody (ls : List String) : List String :=
  ls.takeWhile (fun l => !(isHeaderLine (trimChars l)))

/-- The body of the last section named `n`, when one exists. -/
def lastSegment : List String → String → Option (List String)
  | [], _ => none
  | l :: r, n =>
    match lastSegment r n with
    | some seg => some seg
    | none =>
      let t := trimChars l
      if isHeaderLine t && headerName t == n then some (sectionBody r) else none

/-- The key the parser reads from a trimmed line: the piece before the
first `=`, trimmed. -/
def jsKeyOf (t : String) : String :=
  trimChars ((splitOnChar t '=').headD "")

/-- The value the parser reads from a trimmed line: the piece between the
first and the second `=`, trimmed. -/
def jsValOf (t : String) : String :=
  trimChars (((splitOnChar t '=').drop 1).headD "")

/-- Apply one body line to a profile the way the parser's assignment branch
does. -/
def applyLine (pr : Profile) (line : String) : Profile :=
  let t := trimChars line
  if t.data.contains '=' then assignField pr (jsKeyOf t) (jsValOf t) else pr

/-- The profile a section body builds from scratch. -/
def profileOf (seg : List String) : Profile :=
  seg.foldl applyLine {}

/-- The value a body line assigns to the recognized key `k`, if any. -/
def assignsTo (k : String) (line : String) : Option String :=
  let t := trimChars line
  if t.data.contains '=' && jsKeyOf t == k then some (jsValOf t) else none

/-- The last assignment to key `k` in a section body, if any. -/
def lastAssign (seg : List String) (k : String) : Option String :=
  seg.foldl (fun acc l =>
    match assignsTo k l with
    | some v => some v
    | none => acc) none

/-- The piece of the string before the first occurrence of `c`
(the whole string when `c` does not occur). -/
def beforeChar (s : String) (c : Char) : String :=
  ⟨s.data.takeWhile (fun x => x != c)⟩

/-- The substring after the first occurrence of `c`
(empty when `c` does not occur). -/
def afterChar (s : String) (c : Char) : String :=
  ⟨(s.data.dropWhile (fun x => x != c)).drop 1⟩

/-! ### Lemmas about the split -/

theorem splitOnCharAux_ne_nil (c : Char) (xs acc : List Char) :
    splitOnCharAux c xs acc ≠ [] := by
  induction xs generalizing acc with
  | nil => simp [splitOnCharAux]
  | cons x xs ih =>
    by_cases h : x = c <;> simp [splitOnCharAux, h, ih]

theorem splitOnCharAux_of_not_contains (c : Char) (xs acc : List Char)
    (h : xs.contains c = false) :
    splitOnCharAux c xs acc = [acc.reverse ++ xs] := by
  induction xs generalizing acc with
  | nil => simp [splitOnCharAux]
  | cons x xs ih =>
    simp only [List.contains_cons, Bool.or_eq_false_iff, beq_eq_false_iff_ne] at h
    have hx : x ≠ c := fun hxc => h.1 hxc.symm
    simp [splitOnCharAux, hx, ih _ h.2]

theorem splitOnCharAux_of_contains (c : Char) (xs acc : List Char)
    (h : xs.contains c = true) :
    splitOnCharAux c xs acc =
      (acc.reverse ++ xs.takeWhile (fun x => x != c)) ::
        splitOnCharAux c ((xs.dropWhile (fun x => x != c)).drop 1) [] := by
  induction xs generalizing acc with
  | nil => simp at h
  | cons x xs ih =>
    by_cases hx : x = c
    · subst hx
      simp [splitOnCharAux, List.takeWhile_cons, List.dropWhile_cons]
    · have hxb : (x != c) = true := by simp [hx]
      have h' : xs.contains c = true := by
        simp only [List.contains_cons, Bool.or_eq_true, beq_iff_eq] at h
        rcases h with h | h
        · exact absurd h.symm hx
        · exact h
      simp [splitOnCharAux, hx, ih _ h', List.takeWhile_cons, List.dropWhile_cons, hxb]

theorem takeWhile_of_not_contains (xs : List Char) (c : Char)
    (h : xs.contains c = false) :
    xs.takeWhile (fun x => x != c) = xs := by
  induction xs with
  | nil => rfl
  | cons x xs ih =>
    simp only [List.contains_cons, Bool.or_eq_false_iff, beq_eq_false_iff_ne] at h
    have hx : (x != c) = true := by
      simp only [bne_iff_ne, ne_eq]
      exact fun hxc => h.1 hxc.symm
    simp [List.takeWhile_cons, hx, ih h.2]

theorem headD_eq_head? {α : Type} (l : List α) (d : α) :
    l.headD d = (l.head?).getD d := by
  cases l <;> rfl

theorem splitOnCharAux_head (c : Char) (xs : List Char) :
    (splitOnCharAux c xs []).head? = some (xs.takeWhile (fun x => x != c)) := by
  by_cases h : xs.contains c = true
  · rw [splitOnCharAux_of_contains c xs [] h]
    simp
  · have h' : xs.contains c = false := by simpa using h
    rw [splitOnCharAux_of_not_contains c xs [] h']
    simp [takeWhile_of_not_contains _ _ h']

theorem splitOnChar_headD (s : String) (c : Char) :
    (splitOnChar s c).headD "" = beforeChar s c := by
  unfold splitOnChar beforeChar
  have hh := splitOnCharAux_head c s.data
  cases haux : splitOnCharAux c s.data [] with
  | nil => exact absurd haux (splitOnCharAux_ne_nil c s.data [])
  | cons a t =>
    rw [haux] at hh
    simp only [List.head?_cons, Option.some.injEq] at hh
    subst hh
    simp

theorem splitOnChar_second (s : String) (c : Char) :
    ((splitOnChar s c).drop 1).head? =
      if s.data.contains c = true then some (beforeChar (afterChar s c) c) else none := by
  by_cases h : s.data.contains c = true
  · have hh := splitOnCharAux_head c ((s.data.dropWhile (fun x => x != c)).drop 1)
    unfold splitOnChar
    rw [splitOnCharAux_of_contains c s.data [] h]
    simp only [h, if_true, List.map_cons, List.drop_succ_cons, List.drop_zero,
      List.head?_map, hh, Option.map_some']
    rfl
  · have h' : s.data.contains c = false := by simpa using h
    unfold splitOnChar
    rw [splitOnCharAux_of_not_contains c s.data [] h', h']
    simp

theorem splitOnChar_two_parts (s : String) (c : Char) (h : s.data.contains c = true) :
    ∃ k v rest, splitOnChar s c = k :: v :: rest := by
  unfold splitOnChar
  rw [splitOnCharAux_of_contains c s.data [] h]
  obtain ⟨a, t, ht⟩ :=
    List.exists_cons_of_ne_nil
      (splitOnCharAux_ne_nil c ((s.data.dropWhile (fun x => x != c)).drop 1) [])
  rw [ht]
  exact ⟨_, _, _, rfl⟩

/-! ### Lemmas about the store operations -/

theorem lookupStore_setProfile (ps : Store) (m n : String) (p : Profile) :
    lookupStore (setProfile ps m p) n = if m = n then some p else lookupStore ps n := by
  induction ps with
  | nil => simp [setProfile, lookupStore]
  | cons e r ih =>
    obtain ⟨k, v⟩ := e
    by_cases hk : k = m
    · subst hk
      by_cases hn : k = n
      · subst hn
        simp [setProfile, lookupStore]
      · simp [setProfile, lookupStore, hn]
    · by_cases hn : k = n
      · subst hn
        have hmn : ¬ m = k := fun h => hk h.symm
        simp [setProfile, lookupStore, hk, hmn]
      · simp [setProfile, lookupStore, hk, hn, ih]

theorem lookupStore_updateProfile (ps : Store) (m n : String) (f : Profile → Profile) :
    lookupStore (updateProfile ps m f) n =
      if m = n then (lookupStore ps n).map f else lookupStore ps n := by
  induction ps with
  | nil => simp [updateProfile, lookupStore]
  | cons e r ih =>
    obtain ⟨k, v⟩ := e
    by_cases hk : k = m
    · subst hk
      by_cases hn : k = n
      · subst hn
        simp [updateProfile, lookupStore]
      · simp [updateProfile, lookupStore, hn]
    · by_cases hn : k = n
      · subst hn
        have hmn : ¬ m = k := fun h => hk h.symm
        simp [updateProfile, lookupStore, hk, hmn]
      · simp [updateProfile, lookupStore, hk, hn, ih]

theorem keys_setProfile (ps : Store) (m : String) (p : Profile) :
    (setProfile ps m p).map Prod.fst =
      if m ∈ ps.map Prod.fst then ps.map Prod.fst else ps.map Prod.fst ++ [m] := by
  induction ps with
  | nil => simp [setProfile]
  | cons e r ih =>
    obtain ⟨k, v⟩ := e
    by_cases hk : k = m
    · subst hk
      simp [setProfile]
    · have hmk : ¬ m = k := fun h => hk h.symm
      by_cases hm : m ∈ r.map Prod.fst <;>
        simp [setProfile, hk, hmk, hm, ih]

theorem keys_updateProfile (ps : Store) (m : String) (f : Profile → Profile) :
    (updateProfile ps m f).map Prod.fst = ps.map Prod.fst := by
  induction ps with
  | nil => rfl
  | cons e r ih =>
    obtain ⟨k, v⟩ := e
    by_cases hk : k = m <;> simp [updateProfile, hk, ih]


theorem parseLine_header (st : Option String × Store) (l : String)
    (hh : isHeaderLine (trimChars l) = true) :
    parseLine st l = (some (headerName (trimChars l)),
      setProfile st.2 (headerName (trimChars l)) {}) := by
  simp [parseLine, hh]

theorem parseLine_nosec (st : Option String × Store) (l : String)
    (hh : isHeaderLine (trimChars l) = false) (h1 : st.1 = none) :
    parseLine st l = (none, st.2) := by
  simp [parseLine, hh, h1]

theorem parseLine_assign (cur : String) (ps : Store) (l : String)
    (hh : isHeaderLine (trimChars l) = false)
    (hc : (trimChars l).data.contains '=' = true) :
    parseLine (some cur, ps) l =
      (some cur, updateProfile ps cur (fun pr => applyLine pr l)) := by
  have hc' : '=' ∈ (trimChars l).data := by simpa using hc
  simp [parseLine, applyLine, jsKeyOf, jsValOf, hh, hc']

theorem parseLine_skip (cur : String) (ps : Store) (l : String)
    (hh : isHeaderLine (trimChars l) = false)
    (hc : (trimChars l).data.contains '=' = false) :
    parseLine (some cur, ps) l = (some cur, ps) := by
  have hc' : ¬ ('=' ∈ (trimChars l).data) := by simpa using hc
  simp [parseLine, hh, hc']

theorem applyLine_id (pr : Profile) (l : String)
    (hc : (trimChars l).data.contains '=' = false) :
    applyLine pr l = pr := by
  have hc' : ¬ ('=' ∈ (trimChars l).data) := by simpa using hc
  simp [applyLine, hc']

theorem headerNames_cons_header (l : String) (r : List String)
    (hh : isHeaderLine (trimChars l) = true) :
    headerNames (l :: r) = headerName (trimChars l) :: headerNames r := by
  simp [headerNames, hh]

theorem headerNames_cons_skip (l : String) (r : List String)
    (hh : isHeaderLine (trimChars l) = false) :
    headerNames (l :: r) = headerNames r := by
  simp [headerNames, hh]

theorem sectionBody_cons_header (l : String) (r : List String)
    (hh : isHeaderLine (trimChars l) = true) :
    sectionBody (l :: r) = [] := by
  simp [sectionBody, hh]

theorem sectionBody_cons (l : String) (r : List String)
    (hh : isHeaderLine (trimChars l) = false) :
    sectionBody (l :: r) = l :: sectionBody r := by
  simp [sectionBody, hh]

theorem lastSegment_cons_found (l : String) (r : List String) (n : String)
    (seg : List String) (hseg : lastSegment r n = some seg) :
    lastSegment (l :: r) n = some seg := by
  simp [lastSegment, hseg]

theorem lastSegment_cons_hit (l : String) (r : List String) (n : String)
    (hseg : lastSegment r n = none)
    (hh : isHeaderLine (trimChars l) = true)
    (hnm : headerName (trimChars l) = n) :
    lastSegment (l :: r) n = some (sectionBody r) := by
  simp [lastSegment, hseg, hh, hnm]

theorem lastSegment_cons_miss (l : String) (r : List String) (n : String)
    (hseg : lastSegment r n = none)
    (hh : isHeaderLine (trimChars l) = true)
    (hnm : ¬ headerName (trimChars l) = n) :
    lastSegment (l :: r) n = none := by
  simp [lastSegment, hseg, hh, hnm]

theorem lastSegment_cons_skip (l : String) (r : List String) (n : String)
    (hh : isHeaderLine (trimChars l) = false) :
    lastSegment (l :: r) n = lastSegment r n := by
  cases hseg : lastSegment r n <;> simp [lastSegment, hseg, hh]

theorem parse_keys_go (ls : List String) (cur : Option String) (ps : Store) :
    ((ls.foldl parseLine (cur, ps)).2).map Prod.fst =
      (headerNames ls).foldl
        (fun acc n => if n ∈ acc then acc else acc ++ [n]) (ps.map Prod.fst) := by
  induction ls generalizing cur ps with
  | nil => simp [headerNames]
  | cons l r ih =>
    rw [List.foldl_cons]
    by_cases hh : isHeaderLine (trimChars l) = true
    · rw [parseLine_header (cur, ps) l hh, ih, keys_setProfile,
        headerNames_cons_header l r hh, List.foldl_cons]
    · have hh' : isHeaderLine (trimChars l) = false := by simpa using hh
      rw [headerNames_cons_skip l r hh']
      cases cur with
      | none => rw [parseLine_nosec (none, ps) l hh' rfl, ih]
      | some c =>
        by_cases hc : (trimChars l).data.contains '=' = true
        · rw [parseLine_assign c ps l hh' hc, ih, keys_updateProfile]
        · have hc' : (trimChars l).data.contains '=' = false := by simpa using hc
          rw [parseLine_skip c ps l hh' hc', ih]

theorem parse_lookup_go (ls : List String) (cur : Option String) (ps : Store) (n : String) :
    lookupStore ((ls.foldl parseLine (cur, ps)).2) n =
      (match lastSegment ls n with
       | some seg => some (profileOf seg)
       | none =>
         if cur = some n then
           (lookupStore ps n).map (fun p => (sectionBody ls).foldl applyLine p)
         else lookupStore ps n) := by
  induction ls generalizing cur ps with
  | nil =>
    simp only [List.foldl_nil, lastSegment, sectionBody, List.takeWhile_nil]
    by_cases hcn : cur = some n
    · rw [if_pos hcn]
      simp
    · rw [if_neg hcn]
  | cons l r ih =>
    rw [List.foldl_cons]
    by_cases hh : isHeaderLine (trimChars l) = true
    · rw [parseLine_header (cur, ps) l hh, ih]
      cases hseg : lastSegment r n with
      | some seg => rw [lastSegment_cons_found l r n seg hseg]
      | none =>
        by_cases hnm : headerName (trimChars l) = n
        · rw [lastSegment_cons_hit l r n hseg hh hnm,
            if_pos (by rw [hnm]), lookupStore_setProfile, if_pos hnm]
          simp [profileOf]
        · rw [lastSegment_cons_miss l r n hseg hh hnm,
            if_neg (fun hx => hnm (Option.some.inj hx)),
            lookupStore_setProfile, if_neg hnm, sectionBody_cons_header l r hh]
          by_cases hcn : cur = some n
          · rw [if_pos hcn]
            simp
          · rw [if_neg hcn]
    · have hh' : isHeaderLine (trimChars l) = false := by simpa using hh
      rw [lastSegment_cons_skip l r n hh', sectionBody_cons l r hh']
      cases cur with
      | none =>
        rw [parseLine_nosec (none, ps) l hh' rfl, ih]
        cases hseg : lastSegment r n with
        | some seg => rfl
        | none => simp
      | some c =>
        by_cases hc : (trimChars l).data.contains '=' = true
        · rw [parseLine_assign c ps l hh' hc, ih]
          cases hseg : lastSegment r n with
          | some seg => rfl
          | none =>
            rw [lookupStore_updateProfile]
            by_cases hcn : c = n
            · have hsn : (some c : Option String) = some n := by rw [hcn]
              rw [if_pos hsn, if_pos hsn, if_pos hcn]
              simp only [Option.map_map, List.foldl_cons]
              rfl
            · have hsn : ¬ (some c : Option String) = some n :=
                fun hx => hcn (Option.some.inj hx)
              rw [if_neg hsn, if_neg hsn, if_neg hcn]
        · have hc' : (trimChars l).data.contains '=' = false := by simpa using hc
          rw [parseLine_skip c ps l hh' hc', ih]
          cases hseg : lastSegment r n with
          | some seg => rfl
          | none =>
            by_cases hcn : c = n
            · have hsn : (some c : Option String) = some n := by rw [hcn]
              rw [if_pos hsn, if_pos hsn]
              have hid : ∀ p : Profile, applyLine p l = p :=
                fun p => applyLine_id p l hc'
              simp only [List.foldl_cons, hid]
            · have hsn : ¬ (some c : Option String) = some n :=
                fun hx => hcn (Option.some.inj hx)
              rw [if_neg hsn, if_neg hsn]

theorem parseCredentialsFile_keys (s : String) :
    (parseCredentialsFile s).map Prod.fst =
      firstAppearances (headerNames (storeLines s)) := by
  unfold parseCredentialsFile firstAppearances storeLines
  exact parse_keys_go _ none []

theorem parseCredentialsFile_lookup (s : String) (n : String) :
    lookupStore (parseCredentialsFile s) n =
      (lastSegment (storeLines s) n).map profileOf := by
  unfold parseCredentialsFile storeLines
  rw [parse_lookup_go]
  cases lastSegment (splitOnChar (trimChars s) '\n') n <;> simp [lookupStore]

theorem assignField_accessKeyId (pr : Profile) (k v : String) :
    (assignField pr k v).accessKeyId =
      if k = "aws_access_key_id" then some v else pr.accessKeyId := by
  unfold assignField
  by_cases h1 : k = "aws_access_key_id"
  · simp [h1]
  · by_cases h2 : k = "aws_secret_access_key"
    · simp [h1, h2]
    · by_cases h3 : k = "aws_session_token" <;> simp [h1, h2, h3]

theorem assignField_secretAccessKey (pr : Profile) (k v : String) :
    (assignField pr k v).secretAccessKey =
      if k = "aws_secret_access_key" then some v else pr.secretAccessKey := by
  unfold assignField
  by_cases h1 : k = "aws_access_key_id"
  · rw [if_pos h1, if_neg (by rw [h1]; decide)]
  · rw [if_neg h1]
    by_cases h2 : k = "aws_secret_access_key"
    · rw [if_pos h2, if_pos h2]
    · rw [if_neg h2, if_neg h2]
      by_cases h3 : k = "aws_session_token"
      · rw [if_pos h3]
      · rw [if_neg h3]

theorem assignField_sessionToken (pr : Profile) (k v : String) :
    (assignField pr k v).sessionToken =
      if k = "aws_session_token" then some v else pr.sessionToken := by
  unfold assignField
  by_cases h1 : k = "aws_access_key_id"
  · rw [if_pos h1, if_neg (by rw [h1]; decide)]
  · rw [if_neg h1]
    by_cases h2 : k = "aws_secret_access_key"
    · rw [if_pos h2, if_neg (by rw [h2]; decide)]
    · rw [if_neg h2]
      by_cases h3 : k = "aws_session_token"
      · rw [if_pos h3, if_pos h3]
      · rw [if_neg h3, if_neg h3]

theorem applyLine_accessKeyId (pr : Profile) (l : String) :
    (applyLine pr l).accessKeyId =
      (match assignsTo "aws_access_key_id" l with
       | some v => some v
       | none => pr.accessKeyId) := by
  by_cases hc : (trimChars l).data.contains '=' = true
  · have hc' : '=' ∈ (trimChars l).data := by simpa using hc
    by_cases hk : jsKeyOf (trimChars l) = "aws_access_key_id"
    · simp [applyLine, assignsTo, hc', hk, assignField_accessKeyId]
    · simp [applyLine, assignsTo, hc', hk, assignField_accessKeyId]
  · have hc3 : ¬ ('=' ∈ (trimChars l).data) := by simpa using hc
    simp [applyLine, assignsTo, hc3]

theorem applyLine_secretAccessKey (pr : Profile) (l : String) :
    (applyLine pr l).secretAccessKey =
      (match assignsTo "aws_secret_access_key" l with
       | some v => some v
       | none => pr.secretAccessKey) := by
  by_cases hc : (trimChars l).data.contains '=' = true
  · have hc' : '=' ∈ (trimChars l).data := by simpa using hc
    by_cases hk : jsKeyOf (trimChars l) = "aws_secret_access_key"
    · simp [applyLine, assignsTo, hc', hk, assignField_secretAccessKey]
    · simp [applyLine, assignsTo, hc', hk, assignField_secretAccessKey]
  · have hc3 : ¬ ('=' ∈ (trimChars l).data) := by simpa using hc
    simp [applyLine, assignsTo, hc3]

theorem applyLine_sessionToken (pr : Profile) (l : String) :
    (applyLine pr l).sessionToken =
      (match assignsTo "aws_session_token" l with
       | some v => some v
       | none => pr.sessionToken) := by
  by_cases hc : (trimChars l).data.contains '=' = true
  · have hc' : '=' ∈ (trimChars l).data := by simpa using hc
    by_cases hk : jsKeyOf (trimChars l) = "aws_session_token"
    · simp [applyLine, assignsTo, hc', hk, assignField_sessionToken]
    · simp [applyLine, assignsTo, hc', hk, assignField_sessionToken]
  · have hc3 : ¬ ('=' ∈ (trimChars l).data) := by simpa using hc
    simp [applyLine, assignsTo, hc3]

theorem foldl_applyLine_accessKeyId (seg : List String) (pr : Profile) :
    (seg.foldl applyLine pr).accessKeyId =
      seg.foldl (fun acc l =>
        match assignsTo "aws_access_key_id" l with
        | some v => some v
        | none => acc) pr.accessKeyId := by
  induction seg generalizing pr with
  | nil => rfl
  | cons l r ih =>
    rw [List.foldl_cons, List.foldl_cons, ih, applyLine_accessKeyId]

theorem foldl_applyLine_secretAccessKey (seg : List String) (pr : Profile) :
    (seg.foldl applyLine pr).secretAccessKey =
      seg.foldl (fun acc l =>
        match assignsTo "aws_secret_access_key" l with
        | some v => some v
        | none => acc) pr.secretAccessKey := by
  induction seg generalizing pr with
  | nil => rfl
  | cons l r ih =>
    rw [List.foldl_cons, List.foldl_cons, ih, applyLine_secretAccessKey]

theorem foldl_applyLine_sessionToken (seg : List String) (pr : Profile) :
    (seg.foldl applyLine pr).sessionToken =
      seg.foldl (fun acc l =>
        match assignsTo "aws_session_token" l with
        | some v => some v
        | none => acc) pr.sessionToken := by
  induction seg generalizing pr with
  | nil => rfl
  | cons l r ih =>
    rw [List.foldl_cons, List.foldl_cons, ih, applyLine_sessionToken]

theorem profileOf_fields (seg : List String) :
    profileOf seg =
      { accessKeyId := lastAssign seg "aws_access_key_id",
        secretAccessKey := lastAssign seg "aws_secret_access_key",
        sessionToken := lastAssign seg "aws_session_token" } := by
  have key : ∀ p q : Profile,
      p.accessKeyId = q.accessKeyId → p.secretAccessKey = q.secretAccessKey →
      p.sessionToken = q.sessionToken → p = q := by
    intro p q h1 h2 h3
    cases p
    cases q
    simp_all
  exact key _ _ (foldl_applyLine_accessKeyId seg {})
    (foldl_applyLine_secretAccessKey seg {})
    (foldl_applyLine_sessionToken seg {})

theorem parseLineChecked_ok (cur : Option String) (ps : Store) (l : String)
    (hinv : ∀ c, cur = some c → (lookupStore ps c).isSome = true) :
    parseLineChecked (cur, ps) l = .ok (parseLine (cur, ps) l) := by
  by_cases hh : isHeaderLine (trimChars l) = true
  · simp [parseLineChecked, parseLine, hh]
  · have hh' : isHeaderLine (trimChars l) = false := by simpa using hh
    cases cur with
    | none => simp [parseLineChecked, parseLine, hh']
    | some c =>
      by_cases hc : (trimChars l).data.contains '=' = true
      · obtain ⟨k, v, rest, hkv⟩ := splitOnChar_two_parts (trimChars l) '=' hc
        obtain ⟨p, hp⟩ := Option.isSome_iff_exists.mp (hinv c rfl)
        have hc' : '=' ∈ (trimChars l).data := by simpa using hc
        simp [parseLineChecked, parseLine, hh', hc', hkv, hp]
      · have hc' : ¬ ('=' ∈ (trimChars l).data) := by simpa using hc
        simp [parseLineChecked, parseLine, hh', hc']

theorem parseLine_inv (cur : Option String) (ps : Store) (l : String)
    (hinv : ∀ c, cur = some c → (lookupStore ps c).isSome = true) :
    ∀ c, (parseLine (cur, ps) l).1 = some c →
      (lookupStore (parseLine (cur, ps) l).2 c).isSome = true := by
  intro c hc
  by_cases hh : isHeaderLine (trimChars l) = true
  · rw [parseLine_header (cur, ps) l hh] at hc ⊢
    have hn : headerName (trimChars l) = c := Option.some.inj hc
    subst hn
    simp [lookupStore_setProfile]
  · have hh' : isHeaderLine (trimChars l) = false := by simpa using hh
    cases cur with
    | none =>
      rw [parseLine_nosec (none, ps) l hh' rfl] at hc
      exact absurd hc (by simp)
    | some c0 =>
      by_cases hceq : (trimChars l).data.contains '=' = true
      · rw [parseLine_assign c0 ps l hh' hceq] at hc ⊢
        have hc0 : c0 = c := Option.some.inj hc
        subst hc0
        rw [lookupStore_updateProfile, if_pos rfl]
        have := hinv c0 rfl
        obtain ⟨p, hp⟩ := Option.isSome_iff_exists.mp this
        simp [hp]
      · have hc2 : (trimChars l).data.contains '=' = false := by simpa using hceq
        rw [parseLine_skip c0 ps l hh' hc2] at hc ⊢
        have hc0 : c0 = c := Option.some.inj hc
        subst hc0
        exact hinv c0 rfl

theorem foldlM_parseLineChecked (ls : List String) (st : Option String × Store)
    (hinv : ∀ c, st.1 = some c → (lookupStore st.2 c).isSome = true) :
    ls.foldlM parseLineChecked st = .ok (ls.foldl parseLine st) := by
  induction ls generalizing st with
  | nil => rfl
  | cons l r ih =>
    obtain ⟨cur, ps⟩ := st
    rw [List.foldlM_cons, parseLineChecked_ok cur ps l hinv]
    have hbind :
        ((Except.ok (parseLine (cur, ps) l) : Except String (Option String × Store)) >>=
          fun st' => r.foldlM parseLineChecked st') =
        r.foldlM parseLineChecked (parseLine (cur, ps) l) := rfl
    rw [hbind, List.foldl_cons]
    exact ih (parseLine (cur, ps) l) (parseLine_inv cur ps l hinv)

theorem jsKeyOf_eq (t : String) :
    jsKeyOf t = trimChars (beforeChar t '=') := by
  unfold jsKeyOf
  rw [splitOnChar_headD]

theorem jsValOf_eq (t : String) (h : t.data.contains '=' = true) :
    jsValOf t = trimChars (beforeChar (afterChar t '=') '=') := by
  unfold jsValOf
  rw [headD_eq_head?, splitOnChar_second, if_pos h]
  rfl

theorem beforeChar_of_not_contains (s : String) (c : Char)
    (h : s.data.contains c = false) :
    beforeChar s c = s := by
  unfold beforeChar
  rw [takeWhile_of_not_contains s.data c h]

theorem imageData_eq (url : String) :
    imageData url =
      (if url.data.contains ',' = true
       then some (beforeChar (afterChar url ',') ',') else none) := by
  unfold imageData
  rw [splitOnChar_second]

theorem convertMessages_length (msgs : List ChatMessage) :
    (convertMessages msgs).length + msgs.countP (fun m => m.role == Role.system) =
      msgs.length := by
  induction msgs with
  | nil => rfl
  | cons m r ih =>
    by_cases hr : m.role = Role.system
    · simp only [convertMessages, List.filter_cons, List.countP_cons] at ih ⊢
      simp [hr] at ih ⊢
      omega
    · simp only [convertMessages, List.filter_cons, List.countP_cons] at ih ⊢
      simp [hr] at ih ⊢
      omega

theorem convertMessages_roles (msgs : List ChatMessage) :
    (convertMessages msgs).map WireMessage.role =
      (msgs.map ChatMessage.role).filter (fun r => r != Role.system) := by
  induction msgs with
  | nil => rfl
  | cons m r ih =>
    by_cases hr : m.role = Role.system
    · simp [convertMessages, List.filter_cons, hr] at ih ⊢
      exact ih
    · simp [convertMessages, List.filter_cons, hr, convertMessage] at ih ⊢
      exact ih

theorem convertMessages_filterMap (msgs : List ChatMessage) :
    convertMessages msgs =
      msgs.filterMap (fun m =>
        if m.role == Role.system then none else some (convertMessage m)) := by
  induction msgs with
  | nil => rfl
  | cons m r ih =>
    by_cases hr : m.role = Role.system
    · simp [convertMessages, List.filter_cons, List.filterMap_cons, hr] at ih ⊢
      exact ih
    · simp [convertMessages, List.filter_cons, List.filterMap_cons, hr] at ih ⊢
      exact ih

theorem decodeFrames_eq_filterMap (fs : List Json)
    (h : ∀ f ∈ fs, (frameChunk f).isOk = true) :
    decodeFrames fs = .ok (fs.filterMap frameEmission) := by
  induction fs with
  | nil => rfl
  | cons f rest ih =>
    have hf : (frameChunk f).isOk = true := h f (by simp)
    obtain ⟨c, hc⟩ : ∃ c, frameChunk f = .ok c := by
      cases hfc : frameChunk f with
      | ok c => exact ⟨c, rfl⟩
      | error e =>
        rw [hfc] at hf
        simp [Except.isOk, Except.toBool] at hf
    have ih' := ih (fun g hg => h g (by simp [hg]))
    simp only [decodeFrames, hc, ih']
    cases c with
    | none =>
      have he : frameEmission f = none := by simp [frameEmission, hc]
      rw [List.filterMap_cons, he]
      rfl
    | some v =>
      by_cases hv : truthy v = true
      · have he : frameEmission f = some v := by simp [frameEmission, hc, hv]
        rw [List.filterMap_cons, he]
        show (if truthy v = true
            then (Except.ok (v :: rest.filterMap frameEmission) : Except String (List Json))
            else Except.ok (rest.filterMap frameEmission)) =
          Except.ok (v :: rest.filterMap frameEmission)
        rw [if_pos hv]
      · have hv' : truthy v = false := by simpa using hv
        have he : frameEmission f = none := by simp [frameEmission, hc, hv']
        rw [List.filterMap_cons, he]
        show (if truthy v = true
            then (Except.ok (v :: rest.filterMap frameEmission) : Except String (List Json))
            else Except.ok (rest.filterMap frameEmission)) =
          Except.ok (rest.filterMap frameEmission)
        rw [if_neg hv]

/-! ### Claim theorems -/

/-- C1: When the parsed credential store has neither a profile named
bedrock nor one named default, the credential step of the chat operation
does not fail with a distinct MissingCredentials error: it fails with a
generic TypeError from reading a field of `undefined`.  When a profile is
selected, an absent session token defaults to the empty string. -/
theorem c1_credential_selection_failure_is_type_error :
    selectCredentials (parseCredentialsFile "[work]\naws_access_key_id=AKIA") =
      .error (.typeError "Cannot read properties of undefined (reading accessKeyId)") ∧
    selectCredentials (parseCredentialsFile
        "[bedrock]\naws_access_key_id=AKIA\naws_secret_access_key=SECRET") =
      .ok { accessKeyId := some "AKIA", secretAccessKey := some "SECRET",
            sessionToken := "" } := by
  exact ⟨rfl, rfl⟩

/-- C2 counterexample: re-opening a section named `a` resets its profile,
so the last assignment to a recognized key seen anywhere in sections named
`a` is not kept: after `[a] aws_access_key_id=x [b] [a]` the stored access
key of `a` is absent, not `x`. -/
theorem c2_counterexample_reopened_section_resets :
    (lookupStore (parseCredentialsFile "[a]\naws_access_key_id=x\n[b]\n[a]") "a").map
        Profile.accessKeyId = some none ∧
    some (none : Option String) ≠ some (some "x") := by
  exact ⟨by decide, by decide⟩

/-- C2 amended: the parse returns the bracketed section names in order of
first appearance, and, for each name, the profile whose recognized-key
fields hold the last assignment seen inside the final section block of
that name (re-opening a section name resets its profile to empty). -/
theorem c2_amended_parse_last_block (s : String) :
    (parseCredentialsFile s).map Prod.fst =
      firstAppearances (headerNames (storeLines s)) ∧
    ∀ n, lookupStore (parseCredentialsFile s) n =
      (lastSegment (storeLines s) n).map (fun seg =>
        { accessKeyId := lastAssign seg "aws_access_key_id",
          secretAccessKey := lastAssign seg "aws_secret_access_key",
          sessionToken := lastAssign seg "aws_session_token" }) := by
  constructor
  · exact parseCredentialsFile_keys s
  · intro n
    rw [parseCredentialsFile_lookup s n]
    cases lastSegment (storeLines s) n with
    | none => rfl
    | some seg => simp [profileOf_fields]

/-- C3 counterexample: a frame whose `delta.text` field is present but
empty emits nothing, because the emission test is truthiness, not
presence; the claim would demand one delta carrying the empty string. -/
theorem c3_counterexample_empty_delta_text :
    decodeFrames [Json.obj [("delta", Json.obj [("text", Json.str "")])]] =
      .ok ([] : List Json) ∧
    (Except.ok ([] : List Json) : Except String (List Json)) ≠
      Except.ok [Json.str ""] := by
  refine ⟨rfl, ?_⟩
  intro h
  simp at h

/-- C3 amended: over frames whose property reads succeed, the decoder
emits, in order, exactly the truthy `delta.text` chunks: a present
non-empty text emits one delta with that text, a present empty text emits
nothing, an absent field emits nothing; the concrete three-frame example
decodes to exactly Hel, lo. -/
theorem c3_amended_stream_decode :
    (∀ fs, (∀ f ∈ fs, (frameChunk f).isOk = true) →
      decodeFrames fs = .ok (fs.filterMap frameEmission)) ∧
    (∀ f t, frameChunk f = .ok (some (.str t)) →
      frameEmission f = (if t = "" then none else some (.str t))) ∧
    (∀ f, frameChunk f = .ok none → frameEmission f = none) ∧
    decodeFrames
      [.obj [("delta", .obj [("text", .str "Hel")])],
       .obj [("delta", .obj [("text", .str "lo")])],
       .obj [("other", .num 1)]] = .ok [.str "Hel", .str "lo"] := by
  refine ⟨decodeFrames_eq_filterMap, ?_, ?_, rfl⟩
  · intro f t h
    by_cases ht : t = ""
    · subst ht
      simp [frameEmission, h, truthy]
    · simp [frameEmission, h, truthy, ht]
  · intro f h
    simp [frameEmission, h]

/-- C3 witness: the amended decoder statement applied at one concrete
frame carrying the text Hi. -/
theorem c3_amended_stream_decode_witness :
    decodeFrames [Json.obj [("delta", Json.obj [("text", Json.str "Hi")])]] =
      .ok [Json.str "Hi"] := by
  have h := c3_amended_stream_decode.1
    [Json.obj [("delta", Json.obj [("text", Json.str "Hi")])]]
    (by
      intro f hf
      simp at hf
      subst hf
      rfl)
  exact h.trans (by rfl)

/-- C4 counterexample: for a data URL whose payload contains a comma, the
translation keeps only the piece between the first and the second comma,
not the whole substring after the first comma. -/
theorem c4_counterexample_payload_with_comma :
    convertPart (.imagePart (some "data:image/png;base64,QUJD,REVG")) =
      .imagePart "base64" "image/jpeg" (some "QUJD") ∧
    afterChar "data:image/png;base64,QUJD,REVG" ',' = "QUJD,REVG" ∧
    some "QUJD" ≠ some "QUJD,REVG" := by
  refine ⟨by decide, by decide, by decide⟩

/-- C4 amended: text parts pass through unchanged; an image part becomes
the embedded-image structure with source type base64 and media type always
image/jpeg, whose payload is the piece of the url between the first and
the second comma; when the remainder after the first comma has no further
comma this equals the substring after the first comma. -/
theorem c4_amended_image_translation :
    (∀ t, convertPart (.textPart t) = .textPart t) ∧
    (∀ u, convertPart (.imagePart u) =
      .imagePart "base64" "image/jpeg" (u.bind imageData)) ∧
    (∀ url, imageData url =
      (if url.data.contains ',' = true
       then some (beforeChar (afterChar url ',') ',') else none)) ∧
    (∀ url, url.data.contains ',' = true →
      (afterChar url ',').data.contains ',' = false →
      imageData url = some (afterChar url ',')) := by
  refine ⟨fun t => rfl, fun u => rfl, imageData_eq, ?_⟩
  intro url h1 h2
  rw [imageData_eq, if_pos h1, beforeChar_of_not_contains _ _ h2]

/-- C4 witness: the amended image statement applied at a concrete comma
free payload. -/
theorem c4_amended_image_translation_witness :
    imageData "data:image/jpeg;base64,QUJD" = some "QUJD" := by
  exact (c4_amended_image_translation.2.2.2 "data:image/jpeg;base64,QUJD"
    (by decide) (by decide)).trans (by decide)

/-- C5 counterexample: for a line whose value itself contains an equals
sign, the parser keeps only the piece between the first and the second
equals sign; the full remainder after the first equals sign is lost. -/
theorem c5_counterexample_value_with_equals :
    (lookupStore (parseCredentialsFile "[bedrock]\naws_session_token = FIRST=SECOND")
        "bedrock").map Profile.sessionToken = some (some "FIRST") ∧
    some (some "FIRST") ≠ some (some "FIRST=SECOND") := by
  exact ⟨by decide, by decide⟩

/-- C5 amended: inside an open section, a line containing an equals sign
assigns, for a recognized key, the trimmed piece before the first equals
sign as the key and the trimmed piece between the first and the second
equals sign as the value (the remainder after a second equals sign is
discarded); lines without an equals sign, lines before any section, and
unrecognized keys are ignored. -/
theorem c5_amended_line_split :
    (∀ cur ps l, isHeaderLine (trimChars l) = false →
      (trimChars l).data.contains '=' = true →
      parseLine (some cur, ps) l =
        (some cur, updateProfile ps cur (fun pr =>
          assignField pr (trimChars (beforeChar (trimChars l) '='))
            (trimChars (beforeChar (afterChar (trimChars l) '=') '='))))) ∧
    (∀ cur ps l, isHeaderLine (trimChars l) = false →
      (trimChars l).data.contains '=' = false →
      parseLine (some cur, ps) l = (some cur, ps)) ∧
    (∀ ps l, isHeaderLine (trimChars l) = false →
      parseLine (none, ps) l = (none, ps)) ∧
    (∀ pr k v, ¬ k = "aws_access_key_id" → ¬ k = "aws_secret_access_key" →
      ¬ k = "aws_session_token" → assignField pr k v = pr) := by
  refine ⟨?_, ?_, ?_, ?_⟩
  · intro cur ps l hh hc
    rw [parseLine_assign cur ps l hh hc]
    have hc' : '=' ∈ (trimChars l).data := by simpa using hc
    have hfun : (fun pr => applyLine pr l) = (fun pr =>
        assignField pr (trimChars (beforeChar (trimChars l) '='))
          (trimChars (beforeChar (afterChar (trimChars l) '=') '='))) := by
      funext pr
      have happ : applyLine pr l =
          assignField pr (jsKeyOf (trimChars l)) (jsValOf (trimChars l)) := by
        simp [applyLine, hc']
      rw [happ, jsKeyOf_eq, jsValOf_eq _ hc]
    rw [hfun]
  · exact fun cur ps l hh hc => parseLine_skip cur ps l hh hc
  · exact fun ps l hh => parseLine_nosec (none, ps) l hh rfl
  · intro pr k v h1 h2 h3
    simp [assignField, h1, h2, h3]

/-- C5 witness: the amended line rule applied at one concrete line whose
value contains an equals sign. -/
theorem c5_amended_line_split_witness :
    parseLine (some "bedrock", [("bedrock", {})]) " aws_session_token = abc=def " =
      (some "bedrock", [("bedrock", ({ sessionToken := some "abc" } : Profile))]) := by
  exact (c5_amended_line_split.1 "bedrock" [("bedrock", {})]
    " aws_session_token = abc=def " (by decide) (by decide)).trans (by decide)

/-- C6: translation removes exactly the system-role messages: the output
length is the input length minus the number of system messages, the
remaining roles appear in their original order unchanged, and the output
is the in-order image of the non-system messages. -/
theorem c6_translation_filters_only_system (msgs : List ChatMessage) :
    (convertMessages msgs).length =
      msgs.length - msgs.countP (fun m => m.role == Role.system) ∧
    (convertMessages msgs).map WireMessage.role =
      (msgs.map ChatMessage.role).filter (fun r => r != Role.system) ∧
    convertMessages msgs =
      msgs.filterMap (fun m =>
        if m.role == Role.system then none else some (convertMessage m)) := by
  refine ⟨?_, convertMessages_roles msgs, convertMessages_filterMap msgs⟩
  have h := convertMessages_length msgs
  omega

/-- C7: when the parsed store holds both a bedrock and a default profile,
selection yields the bedrock profile. -/
theorem c7_bedrock_preferred_over_default (store : Store) (p q : Profile)
    (hb : lookupStore store "bedrock" = some p)
    (_hd : lookupStore store "default" = some q) :
    selectProfile store = some p := by
  unfold selectProfile
  rw [hb]
  rfl

/-- C7 witness: selection on a concrete store holding both profiles. -/
theorem c7_bedrock_preferred_over_default_witness :
    selectProfile (parseCredentialsFile
      "[default]\naws_access_key_id=DEF\n[bedrock]\naws_access_key_id=BED") =
      some { accessKeyId := some "BED" } := by
  exact c7_bedrock_preferred_over_default _
    { accessKeyId := some "BED" } { accessKeyId := some "DEF" }
    (by decide) (by decide)

/-- C8: the wire request body is a JSON object with exactly the fields
anthropic version marker, max tokens, system, messages, temperature,
top p, top k and stop sequences, in that order, with the option fields
copied unmodified from the completion options. -/
theorem c8_request_body_fields (sys : String) (msgs : List ChatMessage)
    (opts : CompletionOptions) :
    objKeys (requestBody sys msgs opts) =
      ["anthropic_version", "max_tokens", "system", "messages",
       "temperature", "top_p", "top_k", "stop_sequences"] ∧
    objGet (requestBody sys msgs opts) "anthropic_version" =
      some (.str "bedrock-2023-05-31") ∧
    objGet (requestBody sys msgs opts) "max_tokens" = some (.num opts.maxTokens) ∧
    objGet (requestBody sys msgs opts) "system" = some (.str sys) ∧
    objGet (requestBody sys msgs opts) "messages" =
      some (.arr ((convertMessages msgs).map wireMessageJson)) ∧
    objGet (requestBody sys msgs opts) "temperature" = some (.num opts.temperature) ∧
    objGet (requestBody sys msgs opts) "top_p" = some (.num opts.topP) ∧
    objGet (requestBody sys msgs opts) "top_k" = some (.num opts.topK) ∧
    objGet (requestBody sys msgs opts) "stop_sequences" =
      some (.arr (opts.stop.map Json.str)) := by
  refine ⟨rfl, rfl, rfl, rfl, rfl, rfl, rfl, rfl, rfl⟩

/-- C9: selection falls back to the default profile exactly when no
bedrock entry exists at all; any present bedrock entry, however empty, is
selected. -/
theorem c9_bedrock_selected_even_if_empty (store : Store) :
    ((lookupStore store "bedrock").isSome = true →
      selectProfile store = lookupStore store "bedrock") ∧
    (lookupStore store "bedrock" = none →
      selectProfile store = lookupStore store "default") := by
  constructor
  · intro h
    obtain ⟨p, hp⟩ := Option.isSome_iff_exists.mp h
    unfold selectProfile
    rw [hp]
    rfl
  · intro h
    unfold selectProfile
    rw [h]
    rfl

/-- C9 witness: a store whose bedrock section assigns nothing still
selects the empty bedrock profile, not the populated default one. -/
theorem c9_bedrock_selected_even_if_empty_witness :
    selectProfile (parseCredentialsFile "[bedrock]\n[default]\naws_access_key_id=DEF") =
      some {} := by
  exact ((c9_bedrock_selected_even_if_empty _).1 (by decide)).trans (by decide)

/-- C10: the credential parser is total: on every input string the checked
parser, in which every implicit JavaScript failure point is an explicit
error branch, returns the parsed store and never an error. -/
theorem c10_parser_total_no_error (s : String) :
    parseCredentialsFileChecked s = .ok (parseCredentialsFile s) := by
  unfold parseCredentialsFileChecked parseCredentialsFile
  rw [foldlM_parseLineChecked _ (none, []) (fun c h => Option.noConfusion h)]
  rfl
